import Mathlib

/-!
Verification of kubelogin, `pkg/adaptors/oidcclient/factory.go`.

A shallow embedding of `Factory.New` and `extractSupportedPKCEMethods`, together
with the library behaviour the two functions rest on:

* Go `error` values built by `xerrors.Errorf` / `fmt.Errorf` with a `%w` verb,
* `encoding/json` decoding into the anonymous struct
  `struct { CodeChallengeMethodsSupported []string }`,
* `gooidc.Provider.Claims` / `gooidc.Provider.Endpoint`,
* the `crypto/tls`, `net/http`, `oauth2` records that `New` fills in.

The network call `gooidc.NewProvider` is a parameter of the model (`Network`).
The raw discovery document held by a provider is represented by its JSON syntax
tree: `gooidc.NewProvider` only ever stores a body that it has itself decoded
successfully, so the bytes are well-formed JSON.
-/

set_option autoImplicit false

namespace Kubelogin

/-! ## Go error values -/

/-- A Go `error`. `leaf` is an error with no cause; `wrap` is what a `%w` verb at
the end of a format string produces: the text of the format before the verb
and the wrapped cause (returned by `Unwrap`). -/
inductive GoError where
  | leaf (msg : String)
  | wrap (text : String) (cause : GoError)
  deriving DecidableEq, Repr

namespace GoError

/-- The method `Error()`: the message of the error. -/
def Error : GoError → String
  | leaf msg => msg
  | wrap text cause => text ++ cause.Error

/-- The method `Unwrap()`: the wrapped cause, if any. -/
def Unwrap : GoError → Option GoError
  | leaf _ => none
  | wrap _ cause => some cause

end GoError

/-- The call `xerrors.Errorf(text ++ "%w", err)`. -/
def xerrorsErrorf (text : String) (err : GoError) : GoError := GoError.wrap text err

/-- The call `fmt.Errorf(text ++ "%w", err)`. -/
def fmtErrorf (text : String) (err : GoError) : GoError := GoError.wrap text err

/-! ## Go string slices -/

/-- A Go `[]string`. `nil` is the zero value; `mk array len` is a slice of length
`len` over the backing storage `array` (its capacity is `array.length`). -/
inductive StrSlice where
  | nil
  | mk (array : List String) (len : Nat)
  deriving DecidableEq, Repr

namespace StrSlice

/-- The builtin `len(s)`. -/
def Len : StrSlice → Nat
  | nil => 0
  | mk _ len => len

/-- The builtin `cap(s)`. -/
def Cap : StrSlice → Nat
  | nil => 0
  | mk array _ => array.length

/-- Whether `s == nil`. -/
def isNil : StrSlice → Bool
  | nil => true
  | mk _ _ => false

/-- The elements `s[0], ..., s[len(s)-1]`. -/
def elems : StrSlice → List String
  | nil => []
  | mk array len => array.take len

/-- The backing storage of the slice (empty for the nil slice). -/
def storage : StrSlice → List String
  | nil => []
  | mk array _ => array

/-- The call `reflect.Value.SetLen(n)`. -/
def SetLen (s : StrSlice) (n : Nat) : StrSlice := mk s.storage n

/-- The assignment `s[i] = x`. -/
def setIndex (s : StrSlice) (i : Nat) (x : String) : StrSlice :=
  match s with
  | nil => nil
  | mk array len => mk (array.set i x) len

end StrSlice

/-! ## JSON documents -/

/-- The syntax tree of a JSON text. Object members keep their order and may
repeat a name, as in the text. -/
inductive JSON where
  | null
  | bool (b : Bool)
  | num (n : Int)
  | str (s : String)
  | arr (elems : List JSON)
  | obj (members : List (String × JSON))

namespace JSON

/-- Whether the value is a JSON array. -/
def isArr : JSON → Bool
  | arr _ => true
  | _ => false

/-- Whether the value is the JSON literal `null`. -/
def isNull : JSON → Bool
  | null => true
  | _ => false

end JSON

/-! ## `encoding/json`: decoding into `struct { CodeChallengeMethodsSupported []string }`

The definitions follow `decodeState.object`, `decodeState.array`,
`decodeState.literalStore` and `decodeState.saveError` of `encoding/json`
(`decode.go`), and `equalFoldRight` (`fold.go`), specialised to a struct with
the single field tagged `code_challenge_methods_supported`. -/

/-- The struct tag `json:"code_challenge_methods_supported"` of the field that
`extractSupportedPKCEMethods` declares. -/
def fieldName : String := "code_challenge_methods_supported"

/-- The expression `b & caseMask` of `fold.go` (`caseMask = ^byte(0x20)`). -/
def caseMasked (c : Char) : Nat := c.toNat &&& 0xDF

/-- The function `equalFoldRight(s, t)` of `fold.go`: `s` is the ASCII field name,
`t` the member name of the document. ASCII letters match regardless of case;
a non-ASCII rune of `t` matches only as the long s (U+017F) against `s`/`S`,
or the Kelvin sign (U+212A) against `k`/`K`. -/
def equalFoldRight : List Char → List Char → Bool
  | [], t => t.isEmpty
  | _ :: _, [] => false
  | sb :: s, tb :: t =>
    if tb.toNat < 0x80 then
      if sb ≠ tb then
        if 65 ≤ caseMasked sb ∧ caseMasked sb ≤ 90 then
          if caseMasked sb ≠ caseMasked tb then false else equalFoldRight s t
        else false
      else equalFoldRight s t
    else if sb = 's' ∨ sb = 'S' then
      if tb.toNat ≠ 0x17F then false else equalFoldRight s t
    else if sb = 'k' ∨ sb = 'K' then
      if tb.toNat ≠ 0x212A then false else equalFoldRight s t
    else false

/-- Whether the decoder stores the member named `key` into the field: the name
equals the tag, or matches it under `equalFoldRight`. -/
def bindsField (key : String) : Bool :=
  key == fieldName || equalFoldRight fieldName.data key.data

/-- The Go type `[]string`, as `reflect.Type.String()` prints it. -/
def sliceType : String := "[]string"

/-- The Go type `string`, as `reflect.Type.String()` prints it. -/
def stringType : String := "string"

/-- The type of the decoding target, as `reflect.Type.String()` prints it. -/
def structType : String :=
  "struct \x7b CodeChallengeMethodsSupported []string \"json:\\\"code_challenge_methods_supported\\\"\" \x7d"

/-- An `*json.UnmarshalTypeError` raised while decoding a member bound to the
field: the JSON value of kind `value` does not fit the Go type `type`. -/
def unmarshalTypeError (value type : String) : GoError :=
  GoError.leaf ("json: cannot unmarshal " ++ value ++ " into Go struct field ." ++ fieldName
    ++ " of type " ++ type)

/-- An `*json.UnmarshalTypeError` raised for the document as a whole. -/
def unmarshalTopLevelError (value : String) : GoError :=
  GoError.leaf ("json: cannot unmarshal " ++ value ++ " into Go value of type " ++ structType)

/-- The state of a decoding run: the current value of the field
`CodeChallengeMethodsSupported` and `decodeState.savedError`. -/
structure DecodeState where
  field : StrSlice
  savedError : Option GoError
  deriving DecidableEq, Repr

namespace DecodeState

/-- The method `decodeState.saveError`: only the first error is kept. -/
def saveError (d : DecodeState) (err : GoError) : DecodeState :=
  match d.savedError with
  | none => { d with savedError := some err }
  | some _ => d

end DecodeState

/-- The two statements of `decodeState.array` that make room for element `i` of a
slice: reallocate to capacity `cap + cap/2` (at least 4) when `i >= cap`,
copying the `len` current elements into zeroed storage, then extend the length
to `i + 1` when `i >= len`. -/
def growSlice (v : StrSlice) (i : Nat) : StrSlice :=
  let v1 :=
    if i ≥ v.Cap then
      let newcap := if v.Cap + v.Cap / 2 < 4 then 4 else v.Cap + v.Cap / 2
      StrSlice.mk (v.elems ++ List.replicate (newcap - v.Len) "") v.Len
    else v
  if i ≥ v1.Len then v1.SetLen (i + 1) else v1

/-- The call `d.value(v.Index(i))` for an element of the slice, a Go `string`: a
JSON string is stored, `null` leaves the element as it is, any other value
records an `UnmarshalTypeError` and is skipped. -/
def decodeElem (d : DecodeState) (i : Nat) : JSON → DecodeState
  | JSON.str s => { d with field := d.field.setIndex i s }
  | JSON.null => d
  | JSON.bool _ => d.saveError (unmarshalTypeError "bool" stringType)
  | JSON.num _ => d.saveError (unmarshalTypeError "number" stringType)
  | JSON.arr _ => d.saveError (unmarshalTypeError "array" stringType)
  | JSON.obj _ => d.saveError (unmarshalTypeError "object" stringType)

/-- The element loop of `decodeState.array`: returns the state and the number of
elements read. -/
def arrayLoop (d : DecodeState) (i : Nat) : List JSON → DecodeState × Nat
  | [] => (d, i)
  | e :: es => arrayLoop (decodeElem { d with field := growSlice d.field i } i e) (i + 1) es

/-- The method `decodeState.array` for the slice field: run the element loop, cut
the length down to the number of elements read, and make an array without
elements a non-nil empty slice (`reflect.MakeSlice(v.Type(), 0, 0)`). -/
def decodeArray (d : DecodeState) (es : List JSON) : DecodeState :=
  let r := arrayLoop d 0 es
  let v := if r.2 < r.1.field.Len then r.1.field.SetLen r.2 else r.1.field
  let v := if r.2 = 0 then StrSlice.mk [] 0 else v
  { r.1 with field := v }

/-- The call `d.value(subv)` for a member bound to the field: `null` sets the
slice to nil, an array is decoded element by element, any other value records
an `UnmarshalTypeError` and is skipped. -/
def decodeField (d : DecodeState) : JSON → DecodeState
  | JSON.null => { d with field := StrSlice.nil }
  | JSON.arr es => decodeArray d es
  | JSON.bool _ => d.saveError (unmarshalTypeError "bool" sliceType)
  | JSON.num _ => d.saveError (unmarshalTypeError "number" sliceType)
  | JSON.str _ => d.saveError (unmarshalTypeError "string" sliceType)
  | JSON.obj _ => d.saveError (unmarshalTypeError "object" sliceType)

/-- The member loop of `decodeState.object`: members whose name binds to the field
are decoded into it in document order, all others are skipped. -/
def decodeMembers (d : DecodeState) : List (String × JSON) → DecodeState
  | [] => d
  | (key, v) :: ms =>
    decodeMembers (if bindsField key then decodeField d v else d) ms

/-- The call `json.Unmarshal(raw, &d)` on a zero-valued `d`: the state of `d`
afterwards and the error returned (`decodeState.savedError`). A top-level
`null` leaves `d` untouched; a top-level value that is neither an object nor
`null` is an `UnmarshalTypeError`. -/
def jsonUnmarshal (raw : JSON) : DecodeState :=
  let d : DecodeState := { field := StrSlice.nil, savedError := none }
  match raw with
  | JSON.obj ms => decodeMembers d ms
  | JSON.null => d
  | JSON.bool _ => d.saveError (unmarshalTopLevelError "bool")
  | JSON.num _ => d.saveError (unmarshalTopLevelError "number")
  | JSON.str _ => d.saveError (unmarshalTopLevelError "string")
  | JSON.arr _ => d.saveError (unmarshalTopLevelError "array")

/-- The values of the members of a document that the decoder binds to the field,
in document order. -/
def fieldMembers : List (String × JSON) → List JSON
  | [] => []
  | (key, v) :: ms => if bindsField key then v :: fieldMembers ms else fieldMembers ms

/-- The values of the members of a document whose name is exactly the tag
`code_challenge_methods_supported`, in document order. -/
def exactMembers : List (String × JSON) → List JSON
  | [] => []
  | (key, v) :: ms => if key = fieldName then v :: exactMembers ms else exactMembers ms

/-- Whether the value is a JSON string or `null`: the values that decode into an
element of the slice without error. -/
def JSON.isStrOrNull : JSON → Bool
  | JSON.str _ => true
  | JSON.null => true
  | _ => false

/-- Whether the value is `null` or an array of strings and `null`s: the values that
decode into the field without error. -/
def JSON.fitsField : JSON → Bool
  | JSON.null => true
  | JSON.arr es => es.all JSON.isStrOrNull
  | _ => false

/-! ## Records of `crypto/tls`, `net/http`, `oauth2` and the injected collaborators -/

/-- A reference to a `clock.Interface` collaborator. -/
structure clock.Interface where
  ref : Nat
  deriving DecidableEq, Repr

/-- A reference to a `logger.Interface` collaborator. -/
structure logger.Interface where
  ref : Nat
  deriving DecidableEq, Repr

/-- A reference to a `certpool.Interface` value (a set of trusted root
certificates supplied by the caller). -/
structure certpool.Interface where
  ref : Nat
  deriving DecidableEq, Repr

/-- The type `tls.RenegotiationSupport`, in the order of its constants. -/
inductive tls.RenegotiationSupport where
  | RenegotiateNever
  | RenegotiateOnceAsClient
  | RenegotiateFreelyAsClient
  deriving DecidableEq, Repr

/-- The fields of `tls.Config` that `New` or `SetRootCAs` write. The default
value of the structure is the Go zero value `var tlsConfig tls.Config`. -/
structure tls.Config where
  InsecureSkipVerify : Bool := false
  Renegotiation : tls.RenegotiationSupport := tls.RenegotiationSupport.RenegotiateNever
  RootCAs : Option certpool.Interface := none
  deriving DecidableEq, Repr

/-- Modelled from the spec: `certpool.Interface.SetRootCAs` (package
`pkg/adaptors/certpool`, not among the sources). Section 4.1: the CA pool,
"when present, ... is merged as the transport's root-of-trust, replacing the
system default"; the call writes the `RootCAs` of the configuration. -/
def certpool.Interface.SetRootCAs (pool : certpool.Interface) (cfg : tls.Config) : tls.Config :=
  { cfg with RootCAs := some pool }

/-- The value of the `Proxy` field of an `http.Transport`. -/
inductive ProxyFunc where
  | none
  | ProxyFromEnvironment
  deriving DecidableEq, Repr

/-- The fields of `http.Transport` that `New` sets. -/
structure http.Transport where
  TLSClientConfig : tls.Config
  Proxy : ProxyFunc
  deriving DecidableEq, Repr

/-- The type `logging.Transport`: the base transport and the logger it reports to. -/
structure logging.Transport where
  Base : http.Transport
  Logger : logger.Interface
  deriving DecidableEq, Repr

/-- The type `http.Client`, with the transport `New` gives it. -/
structure http.Client where
  Transport : logging.Transport
  deriving DecidableEq, Repr

/-- A `context.Context`: a root context, or a context derived from a parent by
`context.WithValue(parent, oauth2.HTTPClient, c)`. -/
inductive Context where
  | root (ref : Nat)
  | WithValue (parent : Context) (httpClient : http.Client)
  deriving DecidableEq, Repr

/-- The lookup `ctx.Value(oauth2.HTTPClient)`. -/
def Context.Value : Context → Option http.Client
  | Context.root _ => none
  | Context.WithValue _ c => some c

/-- The type `oauth2.Endpoint`. -/
structure oauth2.Endpoint where
  AuthURL : String
  TokenURL : String
  deriving DecidableEq, Repr

/-- The type `oauth2.Config`, with the fields `New` sets. -/
structure oauth2.Config where
  Endpoint : oauth2.Endpoint
  ClientID : String
  ClientSecret : String
  Scopes : List String
  deriving DecidableEq, Repr

/-- The constant `gooidc.ScopeOpenID`. -/
def gooidc.ScopeOpenID : String := "openid"

/-! ## `gooidc.Provider` -/

/-- The type `gooidc.Provider`: the endpoints read from the discovery document
and the document itself (`rawClaims`, nil when never set). -/
structure gooidc.Provider where
  issuer : String
  authURL : String
  tokenURL : String
  userInfoURL : String
  rawClaims : Option JSON

namespace gooidc.Provider

/-- The method `gooidc.Provider.Endpoint`. -/
def Endpoint (p : gooidc.Provider) : oauth2.Endpoint :=
  { AuthURL := p.authURL, TokenURL := p.tokenURL }

/-- The method `gooidc.Provider.Claims(&d)` on a zero-valued `d`: fails when no raw
claims are set, and decodes them with `json.Unmarshal` otherwise. -/
def Claims (p : gooidc.Provider) : DecodeState :=
  match p.rawClaims with
  | none => { field := StrSlice.nil, savedError := some (GoError.leaf "oidc: claims not set") }
  | some raw => jsonUnmarshal raw

end gooidc.Provider

/-- The network: what `gooidc.NewProvider(ctx, issuer)` returns, a provider or an
error. -/
structure Network where
  NewProvider : Context → String → Except GoError gooidc.Provider

/-! ## `factory.go` -/

/-- The type `oidc.Provider` (package `pkg/oidc`): the provider configuration
given by the caller. `CertPool` is `none` for a nil interface value. -/
structure oidc.Provider where
  IssuerURL : String
  ClientID : String
  ClientSecret : String
  ExtraScopes : List String
  CertPool : Option certpool.Interface
  SkipTLSVerify : Bool
  deriving DecidableEq, Repr

/-- The type `Factory`. -/
structure Factory where
  Clock : clock.Interface
  Logger : logger.Interface
  deriving DecidableEq, Repr

/-- The type `client` that `New` returns behind `Interface`. -/
structure Client where
  httpClient : http.Client
  provider : gooidc.Provider
  oauth2Config : oauth2.Config
  clock : clock.Interface
  logger : logger.Interface
  supportedPKCEMethods : StrSlice

/-- The function `extractSupportedPKCEMethods`: the returned slice and error. -/
def extractSupportedPKCEMethods (provider : gooidc.Provider) : StrSlice × Option GoError :=
  let d := provider.Claims
  match d.savedError with
  | some err => (StrSlice.nil, some (fmtErrorf "invalid discovery document: " err))
  | none => (d.field, none)

/-- Lines 36 to 41 of `Factory.New`: the TLS configuration of the base transport. -/
def Factory.tlsConfig (p : oidc.Provider) : tls.Config :=
  let tlsConfig : tls.Config := {}
  let tlsConfig := { tlsConfig with InsecureSkipVerify := p.SkipTLSVerify }
  let tlsConfig := { tlsConfig with Renegotiation := tls.RenegotiationSupport.RenegotiateFreelyAsClient }
  match p.CertPool with
  | some pool => pool.SetRootCAs tlsConfig
  | none => tlsConfig

/-- Lines 42 to 52 of `Factory.New`: the HTTP client over the logging transport
over the base transport. -/
def Factory.httpClient (f : Factory) (p : oidc.Provider) : http.Client :=
  let baseTransport : http.Transport :=
    { TLSClientConfig := Factory.tlsConfig p, Proxy := ProxyFunc.ProxyFromEnvironment }
  let loggingTransport : logging.Transport := { Base := baseTransport, Logger := f.Logger }
  { Transport := loggingTransport }

/-- The method `Factory.New`: the returned `Interface` (`none` for nil) and the
returned `error` (`none` for nil). -/
def Factory.New (net : Network) (f : Factory) (ctx : Context) (p : oidc.Provider) :
    Option Client × Option GoError :=
  let httpClient := Factory.httpClient f p
  let ctx := Context.WithValue ctx httpClient
  match net.NewProvider ctx p.IssuerURL with
  | Except.error err => (none, some (xerrorsErrorf "oidc discovery error: " err))
  | Except.ok provider =>
    match extractSupportedPKCEMethods provider with
    | (_, some err) =>
      (none, some (xerrorsErrorf "could not determine supported PKCE methods: " err))
    | (supportedPKCEMethods, none) =>
      (some
        { httpClient := httpClient
          provider := provider
          oauth2Config :=
            { Endpoint := provider.Endpoint
              ClientID := p.ClientID
              ClientSecret := p.ClientSecret
              Scopes := p.ExtraScopes ++ [gooidc.ScopeOpenID] }
          clock := f.Clock
          logger := f.Logger
          supportedPKCEMethods := supportedPKCEMethods },
       none)

/-! ## Concrete inputs -/

/-- A factory with two distinct collaborators. -/
def sampleFactory : Factory := { Clock := { ref := 1 }, Logger := { ref := 2 } }

/-- A root context. -/
def sampleContext : Context := Context.root 0

/-- A provider configuration with the given extra scopes. -/
def sampleConfig (extraScopes : List String) : oidc.Provider :=
  { IssuerURL := "https://issuer.example.com"
    ClientID := "kubernetes"
    ClientSecret := ""
    ExtraScopes := extraScopes
    CertPool := none
    SkipTLSVerify := false }

/-- A discovery document: the usual endpoint members followed by `extra`. -/
def sampleDocument (extra : List (String × JSON)) : List (String × JSON) :=
  [("issuer", JSON.str "https://issuer.example.com"),
   ("authorization_endpoint", JSON.str "https://issuer.example.com/auth"),
   ("token_endpoint", JSON.str "https://issuer.example.com/token")] ++ extra

/-- The provider that discovery builds from `sampleDocument extra`. -/
def sampleProvider (extra : List (String × JSON)) : gooidc.Provider :=
  { issuer := "https://issuer.example.com"
    authURL := "https://issuer.example.com/auth"
    tokenURL := "https://issuer.example.com/token"
    userInfoURL := ""
    rawClaims := some (JSON.obj (sampleDocument extra)) }

/-- A network on which discovery succeeds with `sampleDocument extra`. -/
def servingNetwork (extra : List (String × JSON)) : Network :=
  { NewProvider := fun _ _ => Except.ok (sampleProvider extra) }

/-- The discovery document member `code_challenge_methods_supported: v`. -/
def pkceMember (v : JSON) : String × JSON := ("code_challenge_methods_supported", v)

/-- A network on which discovery fails with the error `err`. -/
def failingNetwork (err : GoError) : Network :=
  { NewProvider := fun _ _ => Except.error err }

/-- The error of a refused connection. -/
def connectionRefused : GoError :=
  GoError.leaf "Get https://issuer.example.com/.well-known/openid-configuration: dial tcp: connection refused"

/-! ## Properties of `Factory.New` -/

/-- What `New` returns once discovery has failed. -/
theorem New_of_discovery_error (net : Network) (f : Factory) (ctx : Context) (p : oidc.Provider)
    (err : GoError)
    (h : net.NewProvider (Context.WithValue ctx (Factory.httpClient f p)) p.IssuerURL
      = Except.error err) :
    Factory.New net f ctx p = (none, some (xerrorsErrorf "oidc discovery error: " err)) := by
  simp [Factory.New, h]

/-- What `New` returns once discovery has succeeded and extraction has failed. -/
theorem New_of_extract_error (net : Network) (f : Factory) (ctx : Context) (p : oidc.Provider)
    (provider : gooidc.Provider) (s : StrSlice) (err : GoError)
    (h : net.NewProvider (Context.WithValue ctx (Factory.httpClient f p)) p.IssuerURL
      = Except.ok provider)
    (he : extractSupportedPKCEMethods provider = (s, some err)) :
    Factory.New net f ctx p
      = (none, some (xerrorsErrorf "could not determine supported PKCE methods: " err)) := by
  simp [Factory.New, h, he]

/-- What `New` returns once discovery and extraction have both succeeded. -/
theorem New_of_extract_ok (net : Network) (f : Factory) (ctx : Context) (p : oidc.Provider)
    (provider : gooidc.Provider) (s : StrSlice)
    (h : net.NewProvider (Context.WithValue ctx (Factory.httpClient f p)) p.IssuerURL
      = Except.ok provider)
    (he : extractSupportedPKCEMethods provider = (s, none)) :
    Factory.New net f ctx p
      = (some
          { httpClient := Factory.httpClient f p
            provider := provider
            oauth2Config :=
              { Endpoint := provider.Endpoint
                ClientID := p.ClientID
                ClientSecret := p.ClientSecret
                Scopes := p.ExtraScopes ++ [gooidc.ScopeOpenID] }
            clock := f.Clock
            logger := f.Logger
            supportedPKCEMethods := s },
         none) := by
  simp [Factory.New, h, he]

/-- A client returned by `New` is the record assembled on lines 63 to 75, over a
provider that discovery returned and a slice that extraction returned. -/
theorem New_success_inv (net : Network) (f : Factory) (ctx : Context) (p : oidc.Provider)
    (c : Client) (h : (Factory.New net f ctx p).1 = some c) :
    ∃ provider,
      net.NewProvider (Context.WithValue ctx (Factory.httpClient f p)) p.IssuerURL
        = Except.ok provider ∧
      extractSupportedPKCEMethods provider = (c.supportedPKCEMethods, none) ∧
      c.httpClient = Factory.httpClient f p ∧
      c.provider = provider ∧
      c.oauth2Config =
        { Endpoint := provider.Endpoint
          ClientID := p.ClientID
          ClientSecret := p.ClientSecret
          Scopes := p.ExtraScopes ++ [gooidc.ScopeOpenID] } ∧
      c.clock = f.Clock ∧ c.logger = f.Logger := by
  cases hd : net.NewProvider (Context.WithValue ctx (Factory.httpClient f p)) p.IssuerURL with
  | error err => simp [New_of_discovery_error net f ctx p err hd] at h
  | ok provider =>
    rcases he : extractSupportedPKCEMethods provider with ⟨s, _ | err⟩
    · rw [New_of_extract_ok net f ctx p provider s hd he] at h
      simp only [Option.some.injEq] at h
      subst h
      exact ⟨provider, rfl, he, rfl, rfl, rfl, rfl, rfl⟩
    · simp [New_of_extract_error net f ctx p provider s err hd he] at h

/-! ## Go slices during decoding -/

theorem StrSlice.Len_mk (array : List String) (len : Nat) :
    (StrSlice.mk array len).Len = len := rfl

theorem StrSlice.storage_mk (array : List String) (len : Nat) :
    (StrSlice.mk array len).storage = array := rfl

theorem StrSlice.elems_eq_take (v : StrSlice) : v.elems = v.storage.take v.Len := by
  cases v <;> rfl

theorem StrSlice.Cap_eq_length (v : StrSlice) : v.Cap = v.storage.length := by
  cases v <;> rfl

/-- The three cases of `growSlice` for an index within the length: reallocation
when the storage is full, extension of the length within the storage, and no
change. -/
theorem growSlice_cases (v : StrSlice) (i : Nat) (hi : i ≤ v.Len)
    (hlen : v.Len ≤ v.storage.length) :
    (v.storage.length ≤ i ∧ growSlice v i
        = StrSlice.mk (v.storage ++ List.replicate
            ((if i + i / 2 < 4 then 4 else i + i / 2) - i) "") (i + 1)) ∨
      (i < v.storage.length ∧ v.Len ≤ i ∧ growSlice v i = StrSlice.mk v.storage (i + 1)) ∨
      (i < v.Len ∧ growSlice v i = v) := by
  by_cases hcap : v.storage.length ≤ i
  · have h1 : v.Len = i := by omega
    have h2 : v.storage.length = i := by omega
    refine Or.inl ⟨hcap, ?_⟩
    have ht : List.take i v.storage = v.storage := by
      rw [← h2, List.take_length]
    simp only [growSlice, StrSlice.Cap_eq_length, StrSlice.elems_eq_take, h1, h2, ge_iff_le,
      le_refl, if_true, StrSlice.Len_mk, StrSlice.SetLen, StrSlice.storage_mk, ht]
  · by_cases hl : v.Len ≤ i
    · refine Or.inr (Or.inl ⟨by omega, hl, ?_⟩)
      simp only [growSlice, StrSlice.Cap_eq_length, ge_iff_le, hcap, if_false, hl, if_true,
        StrSlice.SetLen]
    · refine Or.inr (Or.inr ⟨by omega, ?_⟩)
      simp only [growSlice, StrSlice.Cap_eq_length, ge_iff_le, hcap, if_false, hl]

/-- Making room for element `i` keeps the first `i` elements, sets the length to
`max len (i + 1)` and keeps the length within the storage. -/
theorem growSlice_spec (v : StrSlice) (i : Nat) (hi : i ≤ v.Len)
    (hlen : v.Len ≤ v.storage.length) :
    (growSlice v i).storage.take i = v.storage.take i ∧
      (growSlice v i).Len = max v.Len (i + 1) ∧
      (growSlice v i).Len ≤ (growSlice v i).storage.length := by
  rcases growSlice_cases v i hi hlen with ⟨hcap, hg⟩ | ⟨hcap, hl, hg⟩ | ⟨hl, hg⟩
  · rw [hg]
    simp only [StrSlice.storage_mk, StrSlice.Len_mk, List.length_append, List.length_replicate]
    refine ⟨?_, by omega, ?_⟩
    · rw [List.take_append_of_le_length (by omega)]
    · split <;> omega
  · rw [hg]
    exact ⟨rfl, by rw [StrSlice.Len_mk]; omega, by rw [StrSlice.Len_mk, StrSlice.storage_mk]; omega⟩
  · rw [hg]
    exact ⟨rfl, by omega, hlen⟩

/-- Making room for an element never leaves the slice nil. -/
theorem growSlice_not_nil (v : StrSlice) (i : Nat) : (growSlice v i).isNil = false := by
  have hv : ¬ v.storage.length ≤ i → v.isNil = false := by
    intro hcap
    cases v with
    | nil => simp [StrSlice.storage] at hcap
    | mk array len => rfl
  simp only [growSlice, StrSlice.Cap_eq_length, ge_iff_le, StrSlice.SetLen]
  split_ifs with h1 h2 h3 h4 h5
  all_goals first | rfl | exact hv h1

theorem take_succ_set (l : List String) (i : Nat) (y : String) (h : i < l.length) :
    (l.set i y).take (i + 1) = l.take i ++ [y] := by
  induction l generalizing i with
  | nil => simp at h
  | cons a l ih =>
    cases i with
    | zero => simp
    | succ i =>
      simp only [List.length_cons, Nat.add_lt_add_iff_right] at h
      simp [ih i h]

theorem StrSlice.storage_setIndex (v : StrSlice) (i : Nat) (x : String) :
    (v.setIndex i x).storage = v.storage.set i x := by
  cases v <;> rfl

theorem StrSlice.Len_setIndex (v : StrSlice) (i : Nat) (x : String) :
    (v.setIndex i x).Len = v.Len := by
  cases v <;> rfl

theorem StrSlice.isNil_setIndex (v : StrSlice) (i : Nat) (x : String) :
    (v.setIndex i x).isNil = v.isNil := by
  cases v <;> rfl

/-! ## The element loop on an array of strings -/

/-- Decoding the strings `ys` into the slots `i, i + 1, ...` of a slice writes them
there in order, reads `ys.length` elements, extends the length as far as
needed and records no error. -/
theorem arrayLoop_strs (ys : List String) (d : DecodeState) (i : Nat)
    (hi : i ≤ d.field.Len) (hlen : d.field.Len ≤ d.field.storage.length) :
    (arrayLoop d i (ys.map JSON.str)).2 = i + ys.length ∧
      (arrayLoop d i (ys.map JSON.str)).1.savedError = d.savedError ∧
      (arrayLoop d i (ys.map JSON.str)).1.field.storage.take (i + ys.length)
        = d.field.storage.take i ++ ys ∧
      (arrayLoop d i (ys.map JSON.str)).1.field.Len = max d.field.Len (i + ys.length) ∧
      (arrayLoop d i (ys.map JSON.str)).1.field.Len
        ≤ (arrayLoop d i (ys.map JSON.str)).1.field.storage.length := by
  induction ys generalizing d i with
  | nil =>
    have h0 : arrayLoop d i (([] : List String).map JSON.str) = (d, i) := rfl
    rw [h0]
    refine ⟨rfl, rfl, ?_, ?_, hlen⟩
    · simp
    · simp only [List.length_nil, Nat.add_zero]
      omega
  | cons y ys ih =>
    obtain ⟨hg1, hg2, hg3⟩ := growSlice_spec d.field i hi hlen
    have hstep : arrayLoop d i ((y :: ys).map JSON.str)
        = arrayLoop { field := (growSlice d.field i).setIndex i y, savedError := d.savedError }
            (i + 1) (ys.map JSON.str) := rfl
    rw [hstep]
    have hi2 : i + 1 ≤ ((growSlice d.field i).setIndex i y).Len := by
      rw [StrSlice.Len_setIndex, hg2]
      omega
    have hlen2 : ((growSlice d.field i).setIndex i y).Len
        ≤ ((growSlice d.field i).setIndex i y).storage.length := by
      rw [StrSlice.Len_setIndex, StrSlice.storage_setIndex, List.length_set]
      exact hg3
    obtain ⟨h1, h2, h3, h4, h5⟩ :=
      ih { field := (growSlice d.field i).setIndex i y, savedError := d.savedError } (i + 1)
        hi2 hlen2
    refine ⟨?_, h2, ?_, ?_, h5⟩
    · rw [h1, List.length_cons]
      omega
    · have hlt : i < (growSlice d.field i).storage.length := by omega
      have he : i + (y :: ys).length = i + 1 + ys.length := by
        rw [List.length_cons]
        omega
      rw [he, h3]
      simp only [StrSlice.storage_setIndex]
      rw [take_succ_set _ i y hlt, hg1, List.append_assoc]
      rfl
    · rw [h4]
      simp only [StrSlice.Len_setIndex, hg2, List.length_cons]
      omega

/-- The element loop reads every element of the array. -/
theorem arrayLoop_count (es : List JSON) (d : DecodeState) (i : Nat) :
    (arrayLoop d i es).2 = i + es.length := by
  induction es generalizing d i with
  | nil => rfl
  | cons e es ih =>
    have hstep : arrayLoop d i (e :: es)
        = arrayLoop (decodeElem { d with field := growSlice d.field i } i e) (i + 1) es := rfl
    rw [hstep, ih, List.length_cons]
    omega

/-- Decoding an array of the strings `ys` into a slice gives a slice whose elements
are `ys`, and records no error. -/
theorem decodeArray_strs (ys : List String) (d : DecodeState)
    (hlen : d.field.Len ≤ d.field.storage.length) :
    (decodeArray d (ys.map JSON.str)).field.elems = ys ∧
      (decodeArray d (ys.map JSON.str)).field.Len = ys.length ∧
      (decodeArray d (ys.map JSON.str)).savedError = d.savedError := by
  obtain ⟨h1, h2, h3, h4, h5⟩ := arrayLoop_strs ys d 0 (Nat.zero_le _) hlen
  simp only [Nat.zero_add, List.take_zero, List.nil_append] at h1 h3 h4
  refine ⟨?_, ?_, h2⟩
  · simp only [decodeArray, h1]
    by_cases h0 : ys.length = 0
    · simp only [h0, if_true]
      rw [List.length_eq_zero] at h0
      rw [h0]
      rfl
    · simp only [h0, if_false]
      by_cases hl : ys.length < (arrayLoop d 0 (ys.map JSON.str)).1.field.Len
      · simp only [hl, if_true, StrSlice.SetLen, StrSlice.elems]
        exact h3
      · simp only [hl, if_false]
        have hL : (arrayLoop d 0 (ys.map JSON.str)).1.field.Len = ys.length := by omega
        rw [StrSlice.elems_eq_take, hL]
        exact h3
  · simp only [decodeArray, h1]
    by_cases h0 : ys.length = 0
    · simp only [h0, if_true]
      rfl
    · simp only [h0, if_false]
      by_cases hl : ys.length < (arrayLoop d 0 (ys.map JSON.str)).1.field.Len
      · simp only [hl, if_true, StrSlice.SetLen, StrSlice.Len_mk]
      · simp only [hl, if_false]
        omega

/-! ## The first recorded error is kept -/

theorem saveError_kept (d : DecodeState) (err e0 : GoError) (h : d.savedError = some e0) :
    (d.saveError err).savedError = some e0 := by
  simp [DecodeState.saveError, h]

theorem saveError_some (d : DecodeState) (err : GoError) :
    ∃ e, (d.saveError err).savedError = some e := by
  cases h : d.savedError with
  | none => exact ⟨err, by simp [DecodeState.saveError, h]⟩
  | some e0 => exact ⟨e0, saveError_kept d err e0 h⟩

theorem saveError_field (d : DecodeState) (err : GoError) :
    (d.saveError err).field = d.field := by
  cases h : d.savedError <;> simp [DecodeState.saveError, h]

theorem decodeElem_kept (d : DecodeState) (i : Nat) (v : JSON) (e0 : GoError)
    (h : d.savedError = some e0) : (decodeElem d i v).savedError = some e0 := by
  cases v <;> first | exact h | exact saveError_kept d _ e0 h

theorem decodeElem_isNil (d : DecodeState) (i : Nat) (v : JSON) :
    (decodeElem d i v).field.isNil = d.field.isNil := by
  cases v with
  | str s => exact StrSlice.isNil_setIndex d.field i s
  | null => rfl
  | bool b => exact congrArg StrSlice.isNil (saveError_field d _)
  | num n => exact congrArg StrSlice.isNil (saveError_field d _)
  | arr es => exact congrArg StrSlice.isNil (saveError_field d _)
  | obj ms => exact congrArg StrSlice.isNil (saveError_field d _)

theorem arrayLoop_kept (es : List JSON) (d : DecodeState) (i : Nat) (e0 : GoError)
    (h : d.savedError = some e0) : (arrayLoop d i es).1.savedError = some e0 := by
  induction es generalizing d i with
  | nil => exact h
  | cons e es ih =>
    exact ih (decodeElem { d with field := growSlice d.field i } i e) (i + 1)
      (decodeElem_kept _ i e e0 h)

theorem arrayLoop_isNil (es : List JSON) (d : DecodeState) (i : Nat)
    (h : d.field.isNil = false) : (arrayLoop d i es).1.field.isNil = false := by
  induction es generalizing d i with
  | nil => exact h
  | cons e es ih =>
    refine ih (decodeElem { d with field := growSlice d.field i } i e) (i + 1) ?_
    rw [decodeElem_isNil]
    exact growSlice_not_nil d.field i

theorem decodeArray_kept (es : List JSON) (d : DecodeState) (e0 : GoError)
    (h : d.savedError = some e0) : (decodeArray d es).savedError = some e0 :=
  arrayLoop_kept es d 0 e0 h

/-- Decoding an array never leaves the slice nil. -/
theorem decodeArray_not_nil (es : List JSON) (d : DecodeState) :
    (decodeArray d es).field.isNil = false := by
  cases es with
  | nil => rfl
  | cons e es =>
    have hc := arrayLoop_count (e :: es) d 0
    have hn : (arrayLoop d 0 (e :: es)).1.field.isNil = false := by
      refine arrayLoop_isNil es (decodeElem { d with field := growSlice d.field 0 } 0 e) 1 ?_
      rw [decodeElem_isNil]
      exact growSlice_not_nil d.field 0
    have h0 : ¬ (arrayLoop d 0 (e :: es)).2 = 0 := by
      rw [hc, List.length_cons]
      omega
    simp only [decodeArray, h0, if_false]
    split
    · rfl
    · exact hn

theorem decodeField_kept (d : DecodeState) (v : JSON) (e0 : GoError)
    (h : d.savedError = some e0) : (decodeField d v).savedError = some e0 := by
  cases v with
  | null => exact h
  | arr es => exact decodeArray_kept es d e0 h
  | bool b => exact saveError_kept d _ e0 h
  | num n => exact saveError_kept d _ e0 h
  | str s => exact saveError_kept d _ e0 h
  | obj ms => exact saveError_kept d _ e0 h

/-- A member bound to the field whose value is neither an array nor `null` records
an error. -/
theorem decodeField_mismatch (d : DecodeState) (v : JSON) (ha : v.isArr = false)
    (hn : v.isNull = false) : ∃ e, (decodeField d v).savedError = some e := by
  cases v with
  | null => simp [JSON.isNull] at hn
  | arr es => simp [JSON.isArr] at ha
  | bool b => exact saveError_some d _
  | num n => exact saveError_some d _
  | str s => exact saveError_some d _
  | obj ms => exact saveError_some d _

theorem foldl_decodeField_kept (l : List JSON) (d : DecodeState) (e0 : GoError)
    (h : d.savedError = some e0) : (l.foldl decodeField d).savedError = some e0 := by
  induction l generalizing d with
  | nil => exact h
  | cons v l ih => exact ih (decodeField d v) (decodeField_kept d v e0 h)

theorem foldl_decodeField_mismatch (l : List JSON) (d : DecodeState) (v : JSON) (hv : v ∈ l)
    (ha : v.isArr = false) (hn : v.isNull = false) :
    ∃ e, (l.foldl decodeField d).savedError = some e := by
  induction l generalizing d with
  | nil => simp at hv
  | cons w l ih =>
    rcases List.mem_cons.mp hv with rfl | hmem
    · obtain ⟨e, he⟩ := decodeField_mismatch d v ha hn
      exact ⟨e, foldl_decodeField_kept l _ e he⟩
    · exact ih (decodeField d w) hmem

/-- The member loop decodes exactly the members bound to the field, in order. -/
theorem decodeMembers_eq_foldl (ms : List (String × JSON)) (d : DecodeState) :
    decodeMembers d ms = (fieldMembers ms).foldl decodeField d := by
  induction ms generalizing d with
  | nil => rfl
  | cons m ms ih =>
    obtain ⟨key, v⟩ := m
    by_cases hb : bindsField key = true
    · simp only [decodeMembers, fieldMembers, hb, if_true, List.foldl_cons]
      exact ih _
    · simp only [decodeMembers, fieldMembers, hb, if_false]
      exact ih _

/-- The decoder binds a member to the field when its name is the tag or differs
from it in letter case only; other names are not bound. -/
theorem bindsField_examples :
    bindsField "code_challenge_methods_supported" = true ∧
      bindsField "Code_Challenge_Methods_Supported" = true ∧
      bindsField "code_challenge_methods" = false ∧
      bindsField "issuer" = false := by
  decide

/-- A document none of whose member names binds to the field has no field member. -/
theorem fieldMembers_eq_nil (ms : List (String × JSON))
    (homit : ∀ m ∈ ms, bindsField m.1 = false) : fieldMembers ms = [] := by
  induction ms with
  | nil => rfl
  | cons m ms ih =>
    obtain ⟨key, v⟩ := m
    have hk : bindsField key = false := homit (key, v) (List.mem_cons_self _ _)
    simp only [fieldMembers, hk, Bool.false_eq_true, if_false]
    exact ih (fun m hm => homit m (List.mem_cons_of_mem _ hm))

/-- After an error-free decoding of the field members `l`, the slice is nil exactly
when there is no member (and it was nil before) or the last member is `null`. -/
theorem foldl_decodeField_isNil (l : List JSON) (d : DecodeState)
    (hok : (l.foldl decodeField d).savedError = none) :
    (l.foldl decodeField d).field.isNil = true ↔
      (l = [] ∧ d.field.isNil = true) ∨ l.getLast? = some JSON.null := by
  rcases List.eq_nil_or_concat l with rfl | ⟨l1, v, rfl⟩
  · simp
  · rw [List.concat_eq_append] at hok ⊢
    rw [List.foldl_append] at hok ⊢
    simp only [List.foldl_cons, List.foldl_nil] at hok ⊢
    rw [List.getLast?_concat]
    cases v with
    | null => simp [decodeField, StrSlice.isNil]
    | arr es => simp [decodeField, decodeArray_not_nil]
    | bool b =>
      obtain ⟨e, he⟩ := decodeField_mismatch (l1.foldl decodeField d) (JSON.bool b) rfl rfl
      rw [he] at hok
      simp at hok
    | num n =>
      obtain ⟨e, he⟩ := decodeField_mismatch (l1.foldl decodeField d) (JSON.num n) rfl rfl
      rw [he] at hok
      simp at hok
    | str t =>
      obtain ⟨e, he⟩ := decodeField_mismatch (l1.foldl decodeField d) (JSON.str t) rfl rfl
      rw [he] at hok
      simp at hok
    | obj ms =>
      obtain ⟨e, he⟩ := decodeField_mismatch (l1.foldl decodeField d) (JSON.obj ms) rfl rfl
      rw [he] at hok
      simp at hok

/-! ## The length stays within the storage; fitting values record no error -/

theorem decodeElem_Len (d : DecodeState) (i : Nat) (v : JSON) :
    (decodeElem d i v).field.Len = d.field.Len := by
  cases v with
  | str s => exact StrSlice.Len_setIndex d.field i s
  | null => rfl
  | bool b => exact congrArg StrSlice.Len (saveError_field d _)
  | num n => exact congrArg StrSlice.Len (saveError_field d _)
  | arr es => exact congrArg StrSlice.Len (saveError_field d _)
  | obj ms => exact congrArg StrSlice.Len (saveError_field d _)

theorem decodeElem_storage_length (d : DecodeState) (i : Nat) (v : JSON) :
    (decodeElem d i v).field.storage.length = d.field.storage.length := by
  cases v with
  | str s =>
    show (d.field.setIndex i s).storage.length = d.field.storage.length
    rw [StrSlice.storage_setIndex, List.length_set]
  | null => rfl
  | bool b => exact congrArg (fun w => w.storage.length) (saveError_field d _)
  | num n => exact congrArg (fun w => w.storage.length) (saveError_field d _)
  | arr es => exact congrArg (fun w => w.storage.length) (saveError_field d _)
  | obj ms => exact congrArg (fun w => w.storage.length) (saveError_field d _)

theorem arrayLoop_within (es : List JSON) (d : DecodeState) (i : Nat)
    (hi : i ≤ d.field.Len) (hlen : d.field.Len ≤ d.field.storage.length) :
    (arrayLoop d i es).1.field.Len ≤ (arrayLoop d i es).1.field.storage.length := by
  induction es generalizing d i with
  | nil => exact hlen
  | cons e es ih =>
    obtain ⟨-, hg2, hg3⟩ := growSlice_spec d.field i hi hlen
    refine ih (decodeElem { d with field := growSlice d.field i } i e) (i + 1) ?_ ?_
    · rw [decodeElem_Len]
      show i + 1 ≤ (growSlice d.field i).Len
      omega
    · rw [decodeElem_Len, decodeElem_storage_length]
      exact hg3

theorem decodeArray_within (es : List JSON) (d : DecodeState)
    (hlen : d.field.Len ≤ d.field.storage.length) :
    (decodeArray d es).field.Len ≤ (decodeArray d es).field.storage.length := by
  have hw := arrayLoop_within es d 0 (Nat.zero_le _) hlen
  by_cases h0 : (arrayLoop d 0 es).2 = 0
  · simp only [decodeArray, h0, if_true]
    exact Nat.le_refl 0
  · by_cases h1 : (arrayLoop d 0 es).2 < (arrayLoop d 0 es).1.field.Len
    · simp only [decodeArray, h0, if_false, h1, if_true, StrSlice.SetLen, StrSlice.Len_mk,
        StrSlice.storage_mk]
      omega
    · simp only [decodeArray, h0, if_false, h1]
      exact hw

theorem decodeField_within (d : DecodeState) (v : JSON)
    (hlen : d.field.Len ≤ d.field.storage.length) :
    (decodeField d v).field.Len ≤ (decodeField d v).field.storage.length := by
  cases v with
  | null => exact Nat.le_refl 0
  | arr es => exact decodeArray_within es d hlen
  | bool b =>
    show (d.saveError _).field.Len ≤ (d.saveError _).field.storage.length
    rw [saveError_field]
    exact hlen
  | num n =>
    show (d.saveError _).field.Len ≤ (d.saveError _).field.storage.length
    rw [saveError_field]
    exact hlen
  | str t =>
    show (d.saveError _).field.Len ≤ (d.saveError _).field.storage.length
    rw [saveError_field]
    exact hlen
  | obj ms =>
    show (d.saveError _).field.Len ≤ (d.saveError _).field.storage.length
    rw [saveError_field]
    exact hlen

theorem foldl_decodeField_within (l : List JSON) (d : DecodeState)
    (hlen : d.field.Len ≤ d.field.storage.length) :
    (l.foldl decodeField d).field.Len ≤ (l.foldl decodeField d).field.storage.length := by
  induction l generalizing d with
  | nil => exact hlen
  | cons v l ih => exact ih (decodeField d v) (decodeField_within d v hlen)

theorem decodeElem_fits (d : DecodeState) (i : Nat) (v : JSON) (hv : v.isStrOrNull = true) :
    (decodeElem d i v).savedError = d.savedError := by
  cases v with
  | str s => rfl
  | null => rfl
  | bool b => simp [JSON.isStrOrNull] at hv
  | num n => simp [JSON.isStrOrNull] at hv
  | arr es => simp [JSON.isStrOrNull] at hv
  | obj ms => simp [JSON.isStrOrNull] at hv

theorem arrayLoop_fits (es : List JSON) (d : DecodeState) (i : Nat)
    (hes : es.all JSON.isStrOrNull = true) :
    (arrayLoop d i es).1.savedError = d.savedError := by
  induction es generalizing d i with
  | nil => rfl
  | cons e es ih =>
    simp only [List.all_cons, Bool.and_eq_true] at hes
    have hstep : arrayLoop d i (e :: es)
        = arrayLoop (decodeElem { d with field := growSlice d.field i } i e) (i + 1) es := rfl
    rw [hstep, ih _ _ hes.2, decodeElem_fits _ i e hes.1]

theorem decodeField_fits (d : DecodeState) (v : JSON) (hv : v.fitsField = true) :
    (decodeField d v).savedError = d.savedError := by
  cases v with
  | null => rfl
  | arr es => exact arrayLoop_fits es d 0 (by simpa [JSON.fitsField] using hv)
  | bool b => simp [JSON.fitsField] at hv
  | num n => simp [JSON.fitsField] at hv
  | str t => simp [JSON.fitsField] at hv
  | obj ms => simp [JSON.fitsField] at hv

theorem foldl_decodeField_fits (l : List JSON) (d : DecodeState)
    (hl : ∀ v ∈ l, v.fitsField = true) :
    (l.foldl decodeField d).savedError = d.savedError := by
  induction l generalizing d with
  | nil => rfl
  | cons v l ih =>
    rw [List.foldl_cons, ih (decodeField d v) (fun w hw => hl w (List.mem_cons_of_mem _ hw)),
      decodeField_fits d v (hl v (List.mem_cons_self _ _))]

/-- What `extractSupportedPKCEMethods` returns for a provider holding the document
with members `ms`. -/
theorem extract_of_document (provider : gooidc.Provider) (ms : List (String × JSON))
    (hraw : provider.rawClaims = some (JSON.obj ms)) :
    extractSupportedPKCEMethods provider =
      match ((fieldMembers ms).foldl decodeField
          { field := StrSlice.nil, savedError := none }).savedError with
      | some err => (StrSlice.nil, some (fmtErrorf "invalid discovery document: " err))
      | none => (((fieldMembers ms).foldl decodeField
          { field := StrSlice.nil, savedError := none }).field, none) := by
  simp only [extractSupportedPKCEMethods, gooidc.Provider.Claims, hraw, jsonUnmarshal,
    decodeMembers_eq_foldl]

/-! ## Scopes of the OAuth2 configuration -/

/-- C1: when `New` succeeds, the scopes of the returned OAuth2 configuration are the
extra scopes of the caller, in their order, followed by `"openid"` as the last
element. -/
theorem scopes_eq_extra_then_openid (net : Network) (f : Factory) (ctx : Context)
    (p : oidc.Provider) (c : Client) (h : Factory.New net f ctx p = (some c, none)) :
    c.oauth2Config.Scopes = p.ExtraScopes ++ ["openid"] ∧
      c.oauth2Config.Scopes.getLast? = some "openid" := by
  obtain ⟨provider, -, -, -, -, hcfg, -, -⟩ :=
    New_success_inv net f ctx p c (by rw [h])
  rw [hcfg]
  simp [gooidc.ScopeOpenID]

/-- Witness for C1: extra scopes `["groups", "email"]` give
`["groups", "email", "openid"]`. -/
theorem scopes_eq_extra_then_openid_witness :
    ∃ c, Factory.New (servingNetwork []) sampleFactory sampleContext
        (sampleConfig ["groups", "email"]) = (some c, none) ∧
      c.oauth2Config.Scopes = ["groups", "email", "openid"] :=
  ⟨_, rfl,
    (scopes_eq_extra_then_openid (servingNetwork []) sampleFactory sampleContext
      (sampleConfig ["groups", "email"]) _ rfl).1⟩

/-- C2 fails as stated: with extra scopes `["openid"]`, `New` succeeds and the scopes
are `["openid", "openid"]`, which hold two entries equal to `"openid"`. -/
theorem scopes_openid_twice :
    ∃ c, Factory.New (servingNetwork []) sampleFactory sampleContext
        (sampleConfig ["openid"]) = (some c, none) ∧
      c.oauth2Config.Scopes = ["openid", "openid"] ∧
      c.oauth2Config.Scopes.count "openid" = 2 :=
  ⟨_, rfl, rfl, by decide⟩

/-- C2, amended: when `New` succeeds, the scopes hold one more entry equal to
`"openid"` than the extra scopes do; exactly one when the extra scopes hold
none. -/
theorem scopes_count_openid (net : Network) (f : Factory) (ctx : Context)
    (p : oidc.Provider) (c : Client) (h : Factory.New net f ctx p = (some c, none)) :
    c.oauth2Config.Scopes.count "openid" = p.ExtraScopes.count "openid" + 1 ∧
      ("openid" ∉ p.ExtraScopes → c.oauth2Config.Scopes.count "openid" = 1) := by
  obtain ⟨provider, -, -, -, -, hcfg, -, -⟩ :=
    New_success_inv net f ctx p c (by rw [h])
  have hc : c.oauth2Config.Scopes.count "openid" = p.ExtraScopes.count "openid" + 1 := by
    rw [hcfg]
    simp [gooidc.ScopeOpenID]
  refine ⟨hc, fun hnot => ?_⟩
  rw [hc, List.count_eq_zero_of_not_mem hnot]

/-- Witness for the amended C2: extra scopes `["groups", "email"]` give exactly one
`"openid"`. -/
theorem scopes_count_openid_witness :
    ∃ c, Factory.New (servingNetwork []) sampleFactory sampleContext
        (sampleConfig ["groups", "email"]) = (some c, none) ∧
      c.oauth2Config.Scopes.count "openid" = 1 :=
  ⟨_, rfl,
    (scopes_count_openid (servingNetwork []) sampleFactory sampleContext
      (sampleConfig ["groups", "email"]) _ rfl).2 (by decide)⟩

/-! ## Discovery failure, transport policy, all-or-nothing construction -/

/-- C6: when the discovery call fails with cause `e`, `New` returns no client and an
error that wraps `e` and whose message is `"oidc discovery error: "` followed
by the message of `e`. The result is fixed by `e` alone: nothing is extracted
from a provider and no OAuth2 configuration is assembled. -/
theorem discovery_failure_is_wrapped (net : Network) (f : Factory) (ctx : Context)
    (p : oidc.Provider) (e : GoError)
    (hdisc : net.NewProvider (Context.WithValue ctx (Factory.httpClient f p)) p.IssuerURL
      = Except.error e) :
    ∃ err, Factory.New net f ctx p = (none, some err) ∧
      err = xerrorsErrorf "oidc discovery error: " e ∧
      err.Unwrap = some e ∧
      err.Error = "oidc discovery error: " ++ e.Error := by
  refine ⟨_, New_of_discovery_error net f ctx p e hdisc, rfl, rfl, rfl⟩

/-- Witness for C6: an unreachable issuer. -/
theorem discovery_failure_is_wrapped_witness :
    ∃ err, Factory.New (failingNetwork connectionRefused) sampleFactory sampleContext
        (sampleConfig []) = (none, some err) ∧
      err = xerrorsErrorf "oidc discovery error: " connectionRefused ∧
      err.Unwrap = some connectionRefused ∧
      err.Error = "oidc discovery error: " ++ connectionRefused.Error :=
  discovery_failure_is_wrapped (failingNetwork connectionRefused) sampleFactory sampleContext
    (sampleConfig []) connectionRefused rfl

/-- C7: the TLS configuration of the base transport has `InsecureSkipVerify` equal
to the `SkipTLSVerify` flag of the configuration (so it is true exactly when the
flag is), and `Renegotiation` equal to `RenegotiateFreelyAsClient` whatever
the flag and whether or not a CA pool is given. The HTTP client over this
transport is the one stored in the context of the discovery call and in a
returned client. -/
theorem tls_policy (f : Factory) (p : oidc.Provider) :
    ((Factory.httpClient f p).Transport.Base.TLSClientConfig.InsecureSkipVerify = true
        ↔ p.SkipTLSVerify = true) ∧
      (Factory.httpClient f p).Transport.Base.TLSClientConfig.Renegotiation
        = tls.RenegotiationSupport.RenegotiateFreelyAsClient ∧
      (∀ ctx, (Context.WithValue ctx (Factory.httpClient f p)).Value
        = some (Factory.httpClient f p)) ∧
      (∀ net ctx c, Factory.New net f ctx p = (some c, none) →
        c.httpClient = Factory.httpClient f p) := by
  refine ⟨?_, ?_, fun _ => rfl, ?_⟩
  · cases hp : p.CertPool <;>
      simp [Factory.httpClient, Factory.tlsConfig, hp, certpool.Interface.SetRootCAs]
  · cases hp : p.CertPool <;>
      simp [Factory.httpClient, Factory.tlsConfig, hp, certpool.Interface.SetRootCAs]
  · intro net ctx c h
    obtain ⟨provider, -, -, hc, -⟩ := New_success_inv net f ctx p c (by rw [h])
    exact hc

/-- C8: `New` returns either a client and no error, or no client and an error; the
error is present exactly when discovery fails or discovery succeeds and the
extraction of the PKCE methods fails. -/
theorem New_all_or_nothing (net : Network) (f : Factory) (ctx : Context) (p : oidc.Provider) :
    ((∃ c, Factory.New net f ctx p = (some c, none)) ∨
        (∃ err, Factory.New net f ctx p = (none, some err))) ∧
      ((Factory.New net f ctx p).2.isSome = true ↔
        ((∃ err, net.NewProvider (Context.WithValue ctx (Factory.httpClient f p)) p.IssuerURL
            = Except.error err) ∨
          (∃ provider,
            net.NewProvider (Context.WithValue ctx (Factory.httpClient f p)) p.IssuerURL
              = Except.ok provider ∧
            (extractSupportedPKCEMethods provider).2.isSome = true))) := by
  cases hd : net.NewProvider (Context.WithValue ctx (Factory.httpClient f p)) p.IssuerURL with
  | error e =>
    rw [New_of_discovery_error net f ctx p e hd]
    exact ⟨Or.inr ⟨_, rfl⟩, fun _ => Or.inl ⟨e, rfl⟩, fun _ => rfl⟩
  | ok provider =>
    rcases he : extractSupportedPKCEMethods provider with ⟨s, _ | err⟩
    · rw [New_of_extract_ok net f ctx p provider s hd he]
      refine ⟨Or.inl ⟨_, rfl⟩, fun h => by simp at h, ?_⟩
      rintro (⟨err, h⟩ | ⟨q, hq, hs⟩)
      · simp at h
      · simp only [Except.ok.injEq] at hq
        subst hq
        rw [he] at hs
        simp at hs
    · rw [New_of_extract_error net f ctx p provider s err hd he]
      refine ⟨Or.inr ⟨_, rfl⟩, fun _ => Or.inr ⟨provider, rfl, ?_⟩, fun _ => rfl⟩
      rw [he]
      rfl

/-- C10: when `New` succeeds, the OAuth2 configuration of the client carries the
endpoints of the provider that discovery returned, the client ID and the
client secret of the configuration, and the client holds the clock and the
logger of the factory. -/
theorem config_and_collaborators_forwarded (net : Network) (f : Factory) (ctx : Context)
    (p : oidc.Provider) (c : Client) (h : Factory.New net f ctx p = (some c, none)) :
    ∃ provider,
      net.NewProvider (Context.WithValue ctx (Factory.httpClient f p)) p.IssuerURL
        = Except.ok provider ∧
      c.provider = provider ∧
      c.oauth2Config.Endpoint = provider.Endpoint ∧
      c.oauth2Config.Endpoint.AuthURL = provider.authURL ∧
      c.oauth2Config.Endpoint.TokenURL = provider.tokenURL ∧
      c.oauth2Config.ClientID = p.ClientID ∧
      c.oauth2Config.ClientSecret = p.ClientSecret ∧
      c.clock = f.Clock ∧ c.logger = f.Logger := by
  obtain ⟨provider, hd, -, -, hp, hcfg, hclock, hlogger⟩ :=
    New_success_inv net f ctx p c (by rw [h])
  refine ⟨provider, hd, hp, ?_, ?_, ?_, ?_, ?_, hclock, hlogger⟩ <;> rw [hcfg] <;> rfl

/-- Witness for C10: a public client (empty secret) against the sample provider. -/
theorem config_and_collaborators_forwarded_witness :
    ∃ c, Factory.New (servingNetwork []) sampleFactory sampleContext (sampleConfig [])
        = (some c, none) ∧
      c.oauth2Config.Endpoint.AuthURL = "https://issuer.example.com/auth" ∧
      c.oauth2Config.Endpoint.TokenURL = "https://issuer.example.com/token" ∧
      c.oauth2Config.ClientID = "kubernetes" ∧
      c.oauth2Config.ClientSecret = "" ∧
      c.clock = sampleFactory.Clock ∧ c.logger = sampleFactory.Logger :=
  ⟨_, rfl,
    match config_and_collaborators_forwarded (servingNetwork []) sampleFactory sampleContext
        (sampleConfig []) _ rfl with
    | ⟨_, hd, _, _, ha, ht, hid, hsec, hclock, hlogger⟩ => by
      simp only [servingNetwork, Except.ok.injEq] at hd
      subst hd
      exact ⟨ha, ht, hid, hsec, hclock, hlogger⟩⟩

/-! ## Supported PKCE methods -/

/-- C3 fails as stated: the document below has no member named
`code_challenge_methods_supported`, yet its member
`Code_Challenge_Methods_Supported`, which the decoder binds to the field, makes
`New` fail when its value is the string `"S256"` and makes `New` return one
method when its value is the array `["S256"]`. -/
theorem case_variant_member_is_decoded :
    exactMembers (sampleDocument [("Code_Challenge_Methods_Supported", JSON.str "S256")]) = [] ∧
    (extractSupportedPKCEMethods
      (sampleProvider [("Code_Challenge_Methods_Supported", JSON.str "S256")])).2.isSome
        = true ∧
    (∃ err, Factory.New
        (servingNetwork [("Code_Challenge_Methods_Supported", JSON.str "S256")])
        sampleFactory sampleContext (sampleConfig []) = (none, some err)) ∧
    exactMembers
      (sampleDocument [("Code_Challenge_Methods_Supported", JSON.arr [JSON.str "S256"])]) = [] ∧
    (∃ c, Factory.New
        (servingNetwork [("Code_Challenge_Methods_Supported", JSON.arr [JSON.str "S256"])])
        sampleFactory sampleContext (sampleConfig []) = (some c, none) ∧
      c.supportedPKCEMethods.Len = 1 ∧ c.supportedPKCEMethods.elems = ["S256"]) :=
  ⟨rfl, rfl, ⟨_, rfl⟩, rfl, ⟨_, rfl, rfl, rfl⟩⟩

/-- C3, amended: when discovery returns a document in which no member is bound to
the field `code_challenge_methods_supported` by the decoder (no member carries
that name, in any letter case), `extractSupportedPKCEMethods` returns no error
and `New` succeeds with a client whose supported PKCE methods have length
zero. -/
theorem absent_field_gives_no_methods (net : Network) (f : Factory) (ctx : Context)
    (p : oidc.Provider) (provider : gooidc.Provider) (ms : List (String × JSON))
    (hdisc : net.NewProvider (Context.WithValue ctx (Factory.httpClient f p)) p.IssuerURL
      = Except.ok provider)
    (hraw : provider.rawClaims = some (JSON.obj ms))
    (homit : ∀ m ∈ ms, bindsField m.1 = false) :
    (extractSupportedPKCEMethods provider).2 = none ∧
      ∃ c, Factory.New net f ctx p = (some c, none) ∧
        c.supportedPKCEMethods.Len = 0 ∧ c.supportedPKCEMethods.elems = [] := by
  have hnone : fieldMembers ms = [] := fieldMembers_eq_nil ms homit
  have he : extractSupportedPKCEMethods provider = (StrSlice.nil, none) := by
    rw [extract_of_document provider ms hraw, hnone]
    rfl
  refine ⟨by rw [he], _, New_of_extract_ok net f ctx p provider StrSlice.nil hdisc he, rfl, rfl⟩

/-- Witness for the amended C3: the sample document, which has no such member. -/
theorem absent_field_gives_no_methods_witness :
    (extractSupportedPKCEMethods (sampleProvider [])).2 = none ∧
      ∃ c, Factory.New (servingNetwork []) sampleFactory sampleContext (sampleConfig [])
          = (some c, none) ∧
        c.supportedPKCEMethods.Len = 0 ∧ c.supportedPKCEMethods.elems = [] :=
  absent_field_gives_no_methods (servingNetwork []) sampleFactory sampleContext (sampleConfig [])
    (sampleProvider []) (sampleDocument []) rfl rfl (by decide)

/-- C9 fails as stated: in both documents below the one member named
`code_challenge_methods_supported` is an array of strings. In the first a
member `Code_Challenge_Methods_Supported` with the value `7` makes `New` fail;
in the second a member `CODE_CHALLENGE_METHODS_SUPPORTED` with the value
`["b", "c"]` follows the array `["a"]`, and the methods of the client are
`["b", "c"]`. -/
theorem case_variant_member_overrides :
    exactMembers (sampleDocument
        [pkceMember (JSON.arr [JSON.str "S256", JSON.str "plain"]),
         ("Code_Challenge_Methods_Supported", JSON.num 7)])
      = [JSON.arr [JSON.str "S256", JSON.str "plain"]] ∧
    (∃ err, Factory.New
        (servingNetwork
          [pkceMember (JSON.arr [JSON.str "S256", JSON.str "plain"]),
           ("Code_Challenge_Methods_Supported", JSON.num 7)])
        sampleFactory sampleContext (sampleConfig []) = (none, some err)) ∧
    exactMembers (sampleDocument
        [pkceMember (JSON.arr [JSON.str "a"]),
         ("CODE_CHALLENGE_METHODS_SUPPORTED", JSON.arr [JSON.str "b", JSON.str "c"])])
      = [JSON.arr [JSON.str "a"]] ∧
    (∃ c, Factory.New
        (servingNetwork
          [pkceMember (JSON.arr [JSON.str "a"]),
           ("CODE_CHALLENGE_METHODS_SUPPORTED", JSON.arr [JSON.str "b", JSON.str "c"])])
        sampleFactory sampleContext (sampleConfig []) = (some c, none) ∧
      c.supportedPKCEMethods.elems = ["b", "c"] ∧ c.supportedPKCEMethods.elems ≠ ["a"]) :=
  ⟨rfl, ⟨_, rfl⟩, rfl, ⟨_, rfl, rfl, by decide⟩⟩

/-- C9, amended: when discovery returns a document in which the last member that the
decoder binds to the field `code_challenge_methods_supported` (its name is the
tag, in any letter case) is an array of the strings `xs`, and every earlier
such member is `null` or an array of strings and `null`s, `New` succeeds and
the supported PKCE methods of the client are `xs`: the same elements in the
same order, of the same length. A document with a single such member, an
array of strings, is the case `pre = []`. -/
theorem last_array_of_strings_is_kept (net : Network) (f : Factory) (ctx : Context)
    (p : oidc.Provider) (provider : gooidc.Provider) (ms : List (String × JSON))
    (pre : List JSON) (xs : List String)
    (hdisc : net.NewProvider (Context.WithValue ctx (Factory.httpClient f p)) p.IssuerURL
      = Except.ok provider)
    (hraw : provider.rawClaims = some (JSON.obj ms))
    (hfield : fieldMembers ms = pre ++ [JSON.arr (xs.map JSON.str)])
    (hpre : ∀ v ∈ pre, v.fitsField = true) :
    ∃ c, Factory.New net f ctx p = (some c, none) ∧
      c.supportedPKCEMethods.elems = xs ∧
      c.supportedPKCEMethods.Len = xs.length := by
  have hw := foldl_decodeField_within pre { field := StrSlice.nil, savedError := none }
    (Nat.le_refl 0)
  have hs := foldl_decodeField_fits pre { field := StrSlice.nil, savedError := none } hpre
  obtain ⟨h1, h2, h3⟩ :=
    decodeArray_strs xs (pre.foldl decodeField { field := StrSlice.nil, savedError := none }) hw
  have hfold : (fieldMembers ms).foldl decodeField { field := StrSlice.nil, savedError := none }
      = decodeArray (pre.foldl decodeField { field := StrSlice.nil, savedError := none })
          (xs.map JSON.str) := by
    rw [hfield, List.foldl_append]
    rfl
  have he : extractSupportedPKCEMethods provider
      = ((decodeArray (pre.foldl decodeField { field := StrSlice.nil, savedError := none })
          (xs.map JSON.str)).field, none) := by
    rw [extract_of_document provider ms hraw, hfold, h3, hs]
  exact ⟨_, New_of_extract_ok net f ctx p provider _ hdisc he, h1, h2⟩

/-- Witness for the amended C9: a `null` member followed by `["S256", "plain"]` gives
`["S256", "plain"]`. -/
theorem last_array_of_strings_is_kept_witness :
    ∃ c, Factory.New
        (servingNetwork
          [pkceMember JSON.null, pkceMember (JSON.arr [JSON.str "S256", JSON.str "plain"])])
        sampleFactory sampleContext (sampleConfig []) = (some c, none) ∧
      c.supportedPKCEMethods.elems = ["S256", "plain"] ∧
      c.supportedPKCEMethods.Len = 2 :=
  last_array_of_strings_is_kept
    (servingNetwork
      [pkceMember JSON.null, pkceMember (JSON.arr [JSON.str "S256", JSON.str "plain"])])
    sampleFactory sampleContext (sampleConfig [])
    (sampleProvider
      [pkceMember JSON.null, pkceMember (JSON.arr [JSON.str "S256", JSON.str "plain"])])
    (sampleDocument
      [pkceMember JSON.null, pkceMember (JSON.arr [JSON.str "S256", JSON.str "plain"])])
    [JSON.null] ["S256", "plain"] rfl rfl rfl
    (by
      intro v hv
      rw [List.mem_singleton] at hv
      rw [hv]
      rfl)

/-- The plain case of the amended C9: a document whose single member bound to the
field is `["S256", "plain"]` gives `["S256", "plain"]`. -/
theorem single_array_of_strings_example :
    ∃ c, Factory.New
        (servingNetwork [pkceMember (JSON.arr [JSON.str "S256", JSON.str "plain"])])
        sampleFactory sampleContext (sampleConfig []) = (some c, none) ∧
      c.supportedPKCEMethods.elems = ["S256", "plain"] ∧
      c.supportedPKCEMethods.Len = 2 :=
  ⟨_, rfl, rfl, rfl⟩

/-- C4 fails as stated: for a document without the member, and for a document whose
member is `null`, `New` succeeds and the supported PKCE methods of the client
are the nil slice. -/
theorem pkce_methods_can_be_nil :
    (∃ c, Factory.New (servingNetwork []) sampleFactory sampleContext (sampleConfig [])
        = (some c, none) ∧
      c.supportedPKCEMethods = StrSlice.nil ∧ c.supportedPKCEMethods.isNil = true) ∧
    (∃ c, Factory.New (servingNetwork [pkceMember JSON.null]) sampleFactory sampleContext
        (sampleConfig []) = (some c, none) ∧
      c.supportedPKCEMethods = StrSlice.nil ∧ c.supportedPKCEMethods.isNil = true) :=
  ⟨⟨_, rfl, rfl, rfl⟩, ⟨_, rfl, rfl, rfl⟩⟩

/-- C4, amended: when `New` succeeds on a discovery document with members `ms`, the
supported PKCE methods of the client are the nil slice exactly when no member
is bound to `code_challenge_methods_supported` or the last such member is
`null`; the nil slice has length zero and no elements. In every other case
(the last such member is an array, also an empty one) the slice is not nil. -/
theorem pkce_methods_nil_iff (net : Network) (f : Factory) (ctx : Context)
    (p : oidc.Provider) (c : Client) (ms : List (String × JSON))
    (h : Factory.New net f ctx p = (some c, none))
    (hraw : c.provider.rawClaims = some (JSON.obj ms)) :
    (c.supportedPKCEMethods.isNil = true ↔
        fieldMembers ms = [] ∨ (fieldMembers ms).getLast? = some JSON.null) ∧
      (c.supportedPKCEMethods.isNil = true →
        c.supportedPKCEMethods.Len = 0 ∧ c.supportedPKCEMethods.elems = []) := by
  obtain ⟨provider, -, he, -, hp, -, -, -⟩ := New_success_inv net f ctx p c (by rw [h])
  subst hp
  rw [extract_of_document c.provider ms hraw] at he
  constructor
  · cases hs : ((fieldMembers ms).foldl decodeField
        { field := StrSlice.nil, savedError := none }).savedError with
    | some err => simp [hs] at he
    | none =>
      simp only [hs, Prod.mk.injEq, and_true] at he
      rw [← he, foldl_decodeField_isNil _ _ hs]
      simp [StrSlice.isNil]
  · intro hnil
    cases hc : c.supportedPKCEMethods with
    | nil => exact ⟨rfl, rfl⟩
    | mk array len => simp [hc, StrSlice.isNil] at hnil

/-- Witness for the amended C4: an empty array gives a slice that is not nil. -/
theorem pkce_methods_nil_iff_witness :
    ∃ c, Factory.New (servingNetwork [pkceMember (JSON.arr [])]) sampleFactory sampleContext
        (sampleConfig []) = (some c, none) ∧
      c.supportedPKCEMethods.isNil = false ∧
      ¬ (fieldMembers (sampleDocument [pkceMember (JSON.arr [])]) = [] ∨
        (fieldMembers (sampleDocument [pkceMember (JSON.arr [])])).getLast? = some JSON.null) :=
  ⟨_, rfl, rfl, fun hr =>
    Bool.noConfusion
      ((pkce_methods_nil_iff (servingNetwork [pkceMember (JSON.arr [])]) sampleFactory
        sampleContext (sampleConfig []) _ (sampleDocument [pkceMember (JSON.arr [])])
        rfl rfl).1.mpr hr)⟩

/-- C5 fails as stated: for a document whose member is `null`, `New` succeeds and
returns a client and no error. -/
theorem null_field_is_accepted :
    ∃ c, Factory.New (servingNetwork [pkceMember JSON.null]) sampleFactory sampleContext
        (sampleConfig []) = (some c, none) ∧
      (extractSupportedPKCEMethods (sampleProvider [pkceMember JSON.null])).2 = none ∧
      c.supportedPKCEMethods.Len = 0 :=
  ⟨_, rfl, rfl, rfl⟩

/-- C5, amended: when discovery returns a document that has a member bound to
`code_challenge_methods_supported` whose value is neither an array nor `null`
(a string, number, boolean or object), `New` returns no client and an error
that wraps, through the error of `extractSupportedPKCEMethods`, the error
`cause` of the decoder; its message is `"could not determine supported PKCE
methods: invalid discovery document: "` followed by the message of `cause`. -/
theorem mismatched_field_is_error (net : Network) (f : Factory) (ctx : Context)
    (p : oidc.Provider) (provider : gooidc.Provider) (ms : List (String × JSON)) (v : JSON)
    (hdisc : net.NewProvider (Context.WithValue ctx (Factory.httpClient f p)) p.IssuerURL
      = Except.ok provider)
    (hraw : provider.rawClaims = some (JSON.obj ms))
    (hv : v ∈ fieldMembers ms) (ha : v.isArr = false) (hn : v.isNull = false) :
    ∃ cause err,
      (jsonUnmarshal (JSON.obj ms)).savedError = some cause ∧
      Factory.New net f ctx p = (none, some err) ∧
      err = xerrorsErrorf "could not determine supported PKCE methods: "
        (fmtErrorf "invalid discovery document: " cause) ∧
      err.Error = "could not determine supported PKCE methods: invalid discovery document: "
        ++ cause.Error := by
  obtain ⟨cause, hc⟩ :=
    foldl_decodeField_mismatch (fieldMembers ms) { field := StrSlice.nil, savedError := none }
      v hv ha hn
  have he : extractSupportedPKCEMethods provider
      = (StrSlice.nil, some (fmtErrorf "invalid discovery document: " cause)) := by
    rw [extract_of_document provider ms hraw, hc]
  refine ⟨cause, _, ?_, New_of_extract_error net f ctx p provider _ _ hdisc he, rfl, ?_⟩
  · simp only [jsonUnmarshal, decodeMembers_eq_foldl]
    exact hc
  · simp only [xerrorsErrorf, fmtErrorf, GoError.Error]
    rw [← String.append_assoc]
    rfl

/-- Witness for the amended C5: the member is the string `"S256"`. -/
theorem mismatched_field_is_error_witness :
    ∃ cause err,
      (jsonUnmarshal (JSON.obj (sampleDocument [pkceMember (JSON.str "S256")]))).savedError
        = some cause ∧
      Factory.New (servingNetwork [pkceMember (JSON.str "S256")]) sampleFactory sampleContext
        (sampleConfig []) = (none, some err) ∧
      err = xerrorsErrorf "could not determine supported PKCE methods: "
        (fmtErrorf "invalid discovery document: " cause) ∧
      err.Error = "could not determine supported PKCE methods: invalid discovery document: "
        ++ cause.Error :=
  mismatched_field_is_error (servingNetwork [pkceMember (JSON.str "S256")]) sampleFactory
    sampleContext (sampleConfig []) (sampleProvider [pkceMember (JSON.str "S256")])
    (sampleDocument [pkceMember (JSON.str "S256")]) (JSON.str "S256") rfl rfl
    (by simp [sampleDocument, pkceMember, fieldMembers, bindsField, fieldName, equalFoldRight])
    rfl rfl

end Kubelogin
